import Mathlib

/-!
Shallow embedding of `src/main.py`, a CCTV video audit-and-repair tool.

The program probes a media file (`get_meta`), samples the first/last packet
presentation timestamps (`get_packet_first_last_pts`), classifies the file
(`verdict_for_file` : OK / WRAP / FIX), and — unless in dry-run mode —
applies an ordered chain of external repair strategies (`process_one`),
optionally replacing the original in place with a `.bak` backup.

Modelling conventions:
* Python floats are embedded as rationals (`ℚ`); all numeric literals of the
  source (`0.001`, `0.20`, `1e-6`) are exact rationals.
* External subprocess invocations are abstracted by oracles: `Exec` maps a
  fully-built command line to the observations the source makes afterwards
  (return code, destination existence, destination size).
* The filesystem is a finite association list from file names to contents;
  a successful external invocation materialises its destination file, and
  renames/unlinks are explicit list operations.
* Reason strings built with float formatting are embedded as an inductive
  `Reason` whose constructors are in bijection with the source's format
  strings and carry the interpolated numeric payloads.
-/

namespace ConverterVideos

/-- RAW_EXTS from `main.py`: raw elementary bitstream extensions. -/
def RAW_EXTS : List String := [".h264", ".hevc", ".dav"]

/-- VIDEO_EXTS from `main.py`: the container extensions united with `RAW_EXTS`. -/
def VIDEO_EXTS : List String :=
  [".mp4", ".mov", ".mkv", ".avi", ".ts", ".m2ts", ".flv", ".webm", ".3gp",
   ".mpg", ".mpeg", ".wmv", ".asf", ".m4v"] ++ RAW_EXTS

/-- Helper for Python's substring test `needle in hay` on the character lists. -/
def list_contains_sub (needle : List Char) : List Char → Bool
  | [] => needle.isEmpty
  | c :: rest => List.isPrefixOf needle (c :: rest) || list_contains_sub needle rest

/-- Python's `needle in hay` for strings. -/
def str_contains_sub (hay needle : String) : Bool :=
  list_contains_sub needle.data hay.data

/-- ASCII lower-casing of one character (the extension strings compared by the
source are ASCII, so this captures Python's `str.lower` on them). -/
def lower_char (c : Char) : Char :=
  if 'A' ≤ c && c ≤ 'Z' then Char.ofNat (c.toNat + 32) else c

/-- Python's `str.lower()` (ASCII range). -/
def str_lower (s : String) : String :=
  ⟨s.data.map lower_char⟩

/-- The three verdicts returned by `verdict_for_file`. -/
inductive Verdict
  | OK
  | WRAP
  | FIX
deriving DecidableEq, Repr

/-- Values stored in the `extras` dict returned by `verdict_for_file`:
strings, optional strings (Python `None`-able fields) and numbers. -/
inductive ExtraVal
  | s (v : String)
  | os (v : Option String)
  | q (v : ℚ)
deriving DecidableEq, Repr

/-- Embedding of the reason strings of `verdict_for_file`.  Each constructor
corresponds to one format string of the source and carries the values the
source interpolates into it (decimal formatting elided):
* `rawBitstream ext` — "Bitstream cru ({ext}); precisa contêiner + FPS."
* `semDuracaoSemPts` — "Sem duração meta e sem pts_time coerente."
* `semDuracaoPktSugere d` — "Sem duração meta; pacotes sugerem ~{d}s."
* `metaSemPtsValido` — "Meta tem duração, mas pacotes sem pts_time válido…"
* `divergenciaBadCombo dv bc` — the `"; ".join(reason)` of the FIX branch:
  `dv = some (divergence, meta, pkt)` iff the divergence clause fired,
  `bc = some (container, vcodec)` iff the bad-combo clause fired.
* `coerente` — "Metadados e pts_time coerentes." -/
inductive Reason
  | rawBitstream (ext : String)
  | semDuracaoSemPts
  | semDuracaoPktSugere (pkt_dur : ℚ)
  | metaSemPtsValido
  | divergenciaBadCombo (dv : Option (ℚ × ℚ × ℚ)) (bc : Option (Option String × Option String))
  | coerente
deriving DecidableEq, Repr

/-- Branch of `verdict_for_file` taken when `meta_dur is None or meta_dur <= 0.001`
(lines 106–114 of `main.py`). -/
def verdict_no_meta (container vcodec : Option String) (fpts lpts : Option ℚ) :
    Verdict × Reason × List (String × ExtraVal) :=
  match fpts, lpts with
  | some f, some l =>
    if l ≤ f then
      (.FIX, .semDuracaoSemPts, [("container", .os container), ("vcodec", .os vcodec)])
    else
      (.FIX, .semDuracaoPktSugere (l - f),
        [("container", .os container), ("vcodec", .os vcodec), ("pkt_duration", .q (l - f))])
  | _, _ =>
    (.FIX, .semDuracaoSemPts, [("container", .os container), ("vcodec", .os vcodec)])

/-- Branch of `verdict_for_file` taken when a usable probed duration exists
(lines 116–138 of `main.py`). -/
def verdict_with_meta (meta_dur : ℚ) (container vcodec : Option String)
    (fpts lpts : Option ℚ) (diverge_tol : ℚ) :
    Verdict × Reason × List (String × ExtraVal) :=
  match fpts, lpts with
  | some f, some l =>
    if l ≤ f then
      (.FIX, .metaSemPtsValido,
        [("container", .os container), ("vcodec", .os vcodec), ("meta_duration", .q meta_dur)])
    else
      let pkt_dur := max 0 (l - f)
      let divergence := |pkt_dur - meta_dur| / max meta_dur (Rat.divInt 1 1000000)
      let bad_combo := str_contains_sub (container.getD "") "mpeg" &&
        (vcodec == some "h264" || vcodec == some "hevc")
      if diverge_tol < divergence ∨ bad_combo = true then
        (.FIX, .divergenciaBadCombo
            (if diverge_tol < divergence then some (divergence, meta_dur, pkt_dur) else none)
            (if bad_combo then some (container, vcodec) else none),
          [("container", .os container), ("vcodec", .os vcodec),
           ("meta_duration", .q meta_dur), ("pkt_duration", .q pkt_dur)])
      else
        (.OK, .coerente,
          [("container", .os container), ("vcodec", .os vcodec),
           ("meta_duration", .q meta_dur), ("pkt_duration", .q pkt_dur)])
  | _, _ =>
    (.FIX, .metaSemPtsValido,
      [("container", .os container), ("vcodec", .os vcodec), ("meta_duration", .q meta_dur)])

/-- `verdict_for_file` from `main.py` (lines 94–138), as a pure function of the
file's extension (`path.suffix`, un-lowered), the probe results `(meta_dur,
container, vcodec)` of `get_meta`, the packet timestamps `(fpts, lpts)` of
`get_packet_first_last_pts`, and the divergence tolerance (default `0.20`). -/
def verdict_for_file (ext : String) (meta_dur : Option ℚ) (container vcodec : Option String)
    (fpts lpts : Option ℚ) (diverge_tol : ℚ) :
    Verdict × Reason × List (String × ExtraVal) :=
  let extL := str_lower ext
  if extL ∈ RAW_EXTS then
    (.WRAP, .rawBitstream extL, [("ext", .s extL)])
  else
    match meta_dur with
    | none => verdict_no_meta container vcodec fpts lpts
    | some md =>
      if md ≤ Rat.divInt 1 1000 then verdict_no_meta container vcodec fpts lpts
      else verdict_with_meta md container vcodec fpts lpts diverge_tol

/-! ## Metadata probe (`get_meta`, lines 31–65 of `main.py`)

A JSON field that holds a number in the source is embedded as
`Option (Option ℚ)`: `none` = the key is absent, `some none` = present but
`float(...)` raises (unparseable), `some (some v)` = parses to `v`. -/

/-- One entry of `data["streams"]`. -/
structure StreamInfo where
  codec_type : Option String
  codec_name : Option String
  duration : Option (Option ℚ)
deriving DecidableEq, Repr

/-- The `data["format"]` object (`data.get("format", {}) or {}`). -/
structure FormatInfo where
  duration : Option (Option ℚ)
  format_name : Option String
  start_time : Option (Option ℚ)
deriving DecidableEq, Repr

/-- Parsed ffprobe JSON; `none` models `ffprobe_json` returning `None`
(non-zero exit or unparseable output) or falsy data. -/
structure ProbeData where
  format : FormatInfo
  streams : List StreamInfo
deriving DecidableEq, Repr

/-- Loop body of `get_meta`'s `for st in streams` (lines 53–64): the running
state is `(dur, vcodec)`.  The codec of every stream whose `codec_type` is
`"video"` overwrites `vcodec`; the stream-duration fallback fires only while
`dur is None`, and inside that guard `dur = sv if dur is None else max(dur, sv)`
always takes the `sv` branch. -/
def get_meta_stream_step (acc : Option ℚ × Option String) (st : StreamInfo) :
    Option ℚ × Option String :=
  let vc := if st.codec_type == some "video" then st.codec_name else acc.2
  let du :=
    match acc.1 with
    | some dv => some dv
    | none =>
      match st.duration with
      | some (some sv) =>
        if 0 < sv then
          (match acc.1 with
           | none => some sv
           | some dv => some (max dv sv))
        else acc.1
      | _ => acc.1
  (du, vc)

/-- `get_meta` from `main.py`: returns
`(meta_duration, container, vcodec, start_time)`. -/
def get_meta (data : Option ProbeData) : Option ℚ × Option String × Option String × Option ℚ :=
  match data with
  | none => (none, none, none, none)
  | some d =>
    let dur0 : Option ℚ :=
      match d.format.duration with
      | some (some v) => some v
      | _ => none
    let container : Option String :=
      match d.format.format_name with
      | none => some ""
      | some s => if s = "" then some "" else some s
    let start_time : Option ℚ :=
      match d.format.start_time with
      | some (some v) => some v
      | _ => none
    let st := d.streams.foldl get_meta_stream_step (dur0, none)
    (st.1, container, st.2, start_time)

/-- Modelled from the spec, for comparison with the code (claim C5): "fall back
to the maximum of any individual stream's reported duration greater than zero",
`none` when no stream reports a positive parseable duration. -/
def spec_stream_duration_max (streams : List StreamInfo) : Option ℚ :=
  streams.foldl
    (fun acc st =>
      match st.duration with
      | some (some v) =>
        if 0 < v then (match acc with | none => some v | some a => some (max a v)) else acc
      | _ => acc)
    none

/-! ## Packet timeline sampler (`get_packet_first_last_pts`, lines 67–91)

The subprocess's stdout is embedded as the list of per-line parse results of
the stripped lines: `none` for a blank or non-numeric line (skipped by the
source), `some v` for a line parsing to the timestamp `v`. -/

/-- Loop body of `get_packet_first_last_pts` (lines 81–89): `first` is set by
the first parsed value only, `last` by every parsed value. -/
def pts_fold_step (fl : Option ℚ × Option ℚ) (v : Option ℚ) : Option ℚ × Option ℚ :=
  match v with
  | none => fl
  | some val => ((match fl.1 with | none => some val | some f => some f), some val)

/-- `get_packet_first_last_pts` from `main.py`: folds the parsed stdout lines,
returning `(first_pts, last_pts)`; an unstartable tool gives `([], hence
(none, none))`. -/
def get_packet_first_last_pts (lines : List (Option ℚ)) : Option ℚ × Option ℚ :=
  lines.foldl pts_fold_step (none, none)

/-! ## Repair actions and the per-file pipeline (`main.py` lines 140–253) -/

/-- The path of a target file, split as `pathlib` does: full name =
`stem ++ suffix`, `suffix` being the final dot-extension. -/
structure MPath where
  stem : String
  suffix : String
deriving DecidableEq, Repr

/-- `path.name`. -/
def MPath.name (p : MPath) : String := p.stem ++ p.suffix

/-- `path.with_suffix(s)`, as a name: the stem with the new suffix. -/
def MPath.with_suffix_name (p : MPath) (s : String) : String := p.stem ++ s

/-- Contents of a file in the model: the original bytes, or the output
produced by one repair strategy. -/
inductive Strategy
  | wrap (fps : ℤ)
  | remux
  | faststart
  | reencode (out_mkv : Bool) (fps_in : Option ℤ)
deriving DecidableEq, Repr

/-- File contents: the original target's bytes or a strategy's output. -/
inductive FileContent
  | source
  | output (s : Strategy)
deriving DecidableEq, Repr

/-- The filesystem: an association list from file names to contents. -/
abbrev FSt := List (String × FileContent)

/-- Look a name up in the filesystem. -/
def fsGet (fs : FSt) (n : String) : Option FileContent :=
  match fs with
  | [] => none
  | (m, c) :: rest => if m = n then some c else fsGet rest n

/-- Remove a name (Python `unlink` with errors ignored: absent name is a no-op). -/
def fsErase (fs : FSt) (n : String) : FSt :=
  match fs with
  | [] => []
  | (m, c) :: rest => if m = n then fsErase rest n else (m, c) :: fsErase rest n

/-- Create or overwrite a file. -/
def fsSet (fs : FSt) (n : String) (c : FileContent) : FSt :=
  (n, c) :: fsErase fs n

/-- `src.rename(dst)`: move the contents of `src` to `dst` (overwriting `dst`);
in every call site of the source, `src` exists. -/
def fsRename (fs : FSt) (src dst : String) : FSt :=
  match fsGet fs src with
  | some c => fsSet (fsErase fs src) dst c
  | none => fs

/-- Observations the source makes after one external `ffmpeg` invocation:
`run(cmd).returncode`, `dst.exists()` and `dst.stat().st_size`. -/
structure RunResult where
  returncode : ℤ
  dst_exists : Bool
  dst_size : ℕ
deriving DecidableEq, Repr

/-- The external-tool oracle: what invoking a given command line yields. -/
abbrev Exec := List String → RunResult

/-- Command built by `wrap_raw` (lines 144–148). -/
def wrap_cmd (src dst : String) (fps : ℤ) : List String :=
  ["ffmpeg", "-y", "-hide_banner", "-loglevel", "error", "-fflags", "+genpts",
   "-framerate", toString fps, "-i", src, "-c", "copy", dst]

/-- Command built by `remux_to_mkv` (lines 150–154). -/
def remux_cmd (src dst : String) : List String :=
  ["ffmpeg", "-y", "-hide_banner", "-loglevel", "error", "-fflags", "+genpts",
   "-analyzeduration", "200M", "-probesize", "200M", "-i", src, "-c", "copy", dst]

/-- Command built by `mp4_faststart_timescale` (lines 156–160). -/
def faststart_cmd (src dst : String) : List String :=
  ["ffmpeg", "-y", "-hide_banner", "-loglevel", "error", "-fflags", "+genpts",
   "-i", src, "-c", "copy", "-movflags", "+faststart",
   "-video_track_timescale", "90000", dst]

/-- Command built by `reencode_cfr` (lines 162–175); `if fps_in:` adds the
frame-rate hint only for a non-`None`, non-zero value, and `-movflags
+faststart` is added only for MP4 output. -/
def reencode_cmd (src dst : String) (out_mkv : Bool) (fps_in : Option ℤ) : List String :=
  ["ffmpeg", "-y", "-hide_banner", "-loglevel", "error", "-fflags", "+genpts"]
  ++ (match fps_in with
      | some n => if n = 0 then [] else ["-framerate", toString n]
      | none => [])
  ++ ["-i", src, "-map", "0:v:0?", "-map", "0:a:0?", "-vf", "setpts=PTS-STARTPTS",
      "-fps_mode", "cfr", "-c:v", "libx264", "-preset", "veryfast", "-crf", "20",
      "-pix_fmt", "yuv420p", "-c:a", "aac", "-b:a", "128k"]
  ++ (if out_mkv then [] else ["-movflags", "+faststart"])
  ++ [dst]

/-- `wrap_raw` (lines 144–148): success iff zero exit AND destination exists
AND its size is positive. -/
def wrap_raw (exec : Exec) (src dst : String) (fps : ℤ) : Bool :=
  let r := exec (wrap_cmd src dst fps)
  decide (r.returncode = 0) && r.dst_exists && decide (0 < r.dst_size)

/-- `remux_to_mkv` (lines 150–154), same success criterion. -/
def remux_to_mkv (exec : Exec) (src dst : String) : Bool :=
  let r := exec (remux_cmd src dst)
  decide (r.returncode = 0) && r.dst_exists && decide (0 < r.dst_size)

/-- `mp4_faststart_timescale` (lines 156–160), same success criterion. -/
def mp4_faststart_timescale (exec : Exec) (src dst : String) : Bool :=
  let r := exec (faststart_cmd src dst)
  decide (r.returncode = 0) && r.dst_exists && decide (0 < r.dst_size)

/-- `reencode_cfr` (lines 162–176), same success criterion. -/
def reencode_cfr (exec : Exec) (src dst : String) (out_mkv : Bool) (fps_in : Option ℤ) : Bool :=
  let r := exec (reencode_cmd src dst out_mkv fps_in)
  decide (r.returncode = 0) && r.dst_exists && decide (0 < r.dst_size)

/-- Temporary/destination name used by the WRAP loop (lines 197–198):
in place, output goes to `stem_wrapped_tmp<ext_out>`; otherwise directly to
`stem_wrapped<fps><ext_out>`. -/
def wrap_tmp_name (p : MPath) (ext_out : String) (inplace : Bool) (fps : ℤ) : String :=
  if inplace then p.stem ++ ("_wrapped_tmp" ++ ext_out)
  else p.stem ++ ("_wrapped" ++ toString fps ++ ext_out)

/-- Temporary/destination name of the remux step (lines 213–214). -/
def mkv_tmp_name (p : MPath) (inplace : Bool) : String :=
  if inplace then p.stem ++ "_fixed_tmp.mkv" else p.stem ++ "_fixed.mkv"

/-- Temporary/destination name of the faststart step (lines 226–227). -/
def mp4_tmp_name (p : MPath) (inplace : Bool) : String :=
  if inplace then p.stem ++ "_fixed_tmp.mp4" else p.stem ++ "_fixed.mp4"

/-- Temporary/destination name of the re-encode step (lines 240–241). -/
def reenc_tmp_name (p : MPath) (ext_out : String) (inplace : Bool) : String :=
  if inplace then p.stem ++ ("_reenc_tmp" ++ ext_out) else p.stem ++ ("_reenc" ++ ext_out)

/-- The in-place promotion sequence repeated at every success site
(e.g. lines 216–221): remove a stale backup ignoring errors, rename the
original to `<name>.bak` (built as `path.with_suffix(path.suffix + ".bak")`),
then rename the temporary output to its final name. -/
def inplace_promote (fs : FSt) (p : MPath) (tmpName finalName : String) : FSt :=
  let bak := p.with_suffix_name (p.suffix ++ ".bak")
  let fs1 := fsErase fs bak
  let fs2 := fsRename fs1 p.name bak
  fsRename fs2 tmpName finalName

/-- Result of `process_one`: the tuple `(veredito, acao, saida, erro)` the
source returns, extended with the final filesystem and, as a ghost
observation, the ordered list of strategies actually invoked. -/
structure ProcResult where
  verdict : Verdict
  action : String
  out : String
  err : Option String
  fs : FSt
  attempts : List Strategy
deriving DecidableEq, Repr

/-- The WRAP loop of `process_one` (lines 194–209): try each candidate fps in
order; on success, promote (in place) or keep the side-by-side output; after
exhausting the list, report `wrap_failed` with the original untouched. -/
def wrap_loop (exec : Exec) (fs : FSt) (p : MPath) (ext_out : String) (inplace : Bool)
    (v : Verdict) : List ℤ → ProcResult
  | [] => ⟨v, "wrap_failed", "", some "Falha ao embrulhar RAW com FPS tentados.", fs, []⟩
  | fps :: rest =>
    let tmpName := wrap_tmp_name p ext_out inplace fps
    if wrap_raw exec p.name tmpName fps then
      let fs1 := fsSet fs tmpName (.output (.wrap fps))
      if inplace then
        let finalName := p.with_suffix_name ext_out
        ⟨v, "wrap(" ++ toString fps ++ ") inplace", finalName, none,
          inplace_promote fs1 p tmpName finalName, [.wrap fps]⟩
      else ⟨v, "wrap(" ++ toString fps ++ ")", tmpName, none, fs1, [.wrap fps]⟩
    else
      let r := wrap_loop exec fs p ext_out inplace v rest
      { r with attempts := .wrap fps :: r.attempts }

/-- The label Python computes for `f"reencode_cfr({fps_in or 'auto'})"`:
`None` and `0` are falsy, so both print as `auto`. -/
def fps_label : Option ℤ → String
  | none => "auto"
  | some n => if n = 0 then "auto" else toString n

/-- The re-encode fallback loop of `process_one` (lines 238–253): iterate over
`[None, *try_fps]`; after exhausting it, report `reencode_failed`. -/
def reencode_loop (exec : Exec) (fs : FSt) (p : MPath) (ext_out : String)
    (inplace prefer_mkv : Bool) (v : Verdict) : List (Option ℤ) → ProcResult
  | [] => ⟨v, "reencode_failed", "", some "Re-encode CFR falhou com todos os FPS.", fs, []⟩
  | fi :: rest =>
    let tmpName := reenc_tmp_name p ext_out inplace
    if reencode_cfr exec p.name tmpName prefer_mkv fi then
      let fs1 := fsSet fs tmpName (.output (.reencode prefer_mkv fi))
      if inplace then
        let finalName := p.with_suffix_name ext_out
        ⟨v, "reencode_cfr(" ++ fps_label fi ++ ") inplace", finalName, none,
          inplace_promote fs1 p tmpName finalName, [.reencode prefer_mkv fi]⟩
      else ⟨v, "reencode_cfr(" ++ fps_label fi ++ ")", tmpName, none, fs1,
        [.reencode prefer_mkv fi]⟩
    else
      let r := reencode_loop exec fs p ext_out inplace prefer_mkv v rest
      { r with attempts := .reencode prefer_mkv fi :: r.attempts }

/-- The FIX chain of `process_one` (lines 211–253): remux to MKV, then MP4
faststart/timescale stream copy, then the CFR re-encode loop. -/
def fix_chain (exec : Exec) (fs : FSt) (p : MPath) (ext_out : String)
    (inplace prefer_mkv : Bool) (try_fps : List ℤ) (v : Verdict) : ProcResult :=
  let mkv_tmp := mkv_tmp_name p inplace
  if remux_to_mkv exec p.name mkv_tmp then
    let fs1 := fsSet fs mkv_tmp (.output .remux)
    if inplace then
      let finalName := p.with_suffix_name ".mkv"
      ⟨v, "remux_mkv inplace", finalName, none,
        inplace_promote fs1 p mkv_tmp finalName, [.remux]⟩
    else ⟨v, "remux_mkv", mkv_tmp, none, fs1, [.remux]⟩
  else
    let mp4_tmp := mp4_tmp_name p inplace
    if mp4_faststart_timescale exec p.name mp4_tmp then
      let fs1 := fsSet fs mp4_tmp (.output .faststart)
      if inplace then
        ⟨v, "mp4_faststart_timescale inplace", p.name, none,
          inplace_promote fs1 p mp4_tmp p.name, [.remux, .faststart]⟩
      else ⟨v, "mp4_faststart_timescale", mp4_tmp, none, fs1, [.remux, .faststart]⟩
    else
      let r := reencode_loop exec fs p ext_out inplace prefer_mkv v (none :: try_fps.map some)
      { r with attempts := .remux :: .faststart :: r.attempts }

/-- `process_one` from `main.py` (lines 179–253): returns the verdict and the
action taken; OK files and dry runs return immediately with no action. -/
def process_one (exec : Exec) (fs0 : FSt) (p : MPath) (meta_dur : Option ℚ)
    (container vcodec : Option String) (fpts lpts : Option ℚ) (diverge_tol : ℚ)
    (try_fps : List ℤ) (dry_run inplace prefer_mkv : Bool) : ProcResult :=
  let v := (verdict_for_file p.suffix meta_dur container vcodec fpts lpts diverge_tol).1
  let ext_out := if prefer_mkv then ".mkv" else ".mp4"
  if v = .OK then ⟨v, "none", "", none, fs0, []⟩
  else if dry_run then ⟨v, "planned", "", none, fs0, []⟩
  else if v = .WRAP then wrap_loop exec fs0 p ext_out inplace v try_fps
  else fix_chain exec fs0 p ext_out inplace prefer_mkv try_fps v

/-- Whether a diagnostics payload carries a given key. -/
def has_key (l : List (String × ExtraVal)) (k : String) : Bool :=
  l.any (fun kv => kv.1 == k)

/-- The prefix of a strategy list up to and including the first successful
strategy (the whole list if none succeeds): the strategies a short-circuiting
chain actually invokes. -/
def take_through_first (ok : Strategy → Bool) : List Strategy → List Strategy
  | [] => []
  | s :: rest => if ok s then [s] else s :: take_through_first ok rest

/-- Success of one strategy invocation exactly as `process_one` performs it:
the same source, destination and parameters. -/
def fix_attempt_ok (exec : Exec) (p : MPath) (ext_out : String) (inplace : Bool) :
    Strategy → Bool
  | .wrap fps => wrap_raw exec p.name (wrap_tmp_name p ext_out inplace fps) fps
  | .remux => remux_to_mkv exec p.name (mkv_tmp_name p inplace)
  | .faststart => mp4_faststart_timescale exec p.name (mp4_tmp_name p inplace)
  | .reencode om fi => reencode_cfr exec p.name (reenc_tmp_name p ext_out inplace) om fi

/-- Initial filesystem for the in-place replacement analysis: the target file
holding its original bytes, and optionally a stale backup from an earlier
run. -/
def initial_fs (stem suffix : String) (oldBak : Option FileContent) : FSt :=
  (stem ++ suffix, FileContent.source) ::
    (match oldBak with
     | none => []
     | some ob => [(stem ++ (suffix ++ ".bak"), ob)])

/-! ## Theorems -/

/-- String equality is determined by the character data. -/
theorem str_append_cancel_left {a b c : String} (h : a ++ b = a ++ c) : b = c := by
  have hd : a.data ++ b.data = a.data ++ c.data := by
    have := congrArg String.data h
    simpa [String.data_append] using this
  exact String.ext (List.append_cancel_left hd)

/-- Appending the same stem preserves distinctness of tails. -/
theorem str_ne_of_tail_ne {stem b c : String} (h : b ≠ c) : stem ++ b ≠ stem ++ c :=
  fun he => h (str_append_cancel_left he)

/-- String append is associative. -/
theorem str_append_assoc (a b c : String) : (a ++ b) ++ c = a ++ (b ++ c) :=
  String.ext (by simp [String.data_append])

/-- No string equals itself extended by `".bak"`. -/
theorem str_ne_self_append_bak (b : String) : b ≠ b ++ ".bak" := by
  intro h
  have h1 : b.length = b.length + ".bak".length := by
    conv_lhs => rw [h]
    exact String.length_append b ".bak"
  have h2 : ".bak".length = 4 := rfl
  omega

/-- Unfolding of `verdict_for_file` on a raw extension. -/
theorem verdict_for_file_raw (ext : String) (md : Option ℚ) (c vc : Option String)
    (f l : Option ℚ) (t : ℚ) (h : str_lower ext ∈ RAW_EXTS) :
    verdict_for_file ext md c vc f l t
      = (.WRAP, .rawBitstream (str_lower ext), [("ext", .s (str_lower ext))]) := by
  simp [verdict_for_file, h]

/-- Unfolding of `verdict_for_file` on a non-raw extension with no probed
duration. -/
theorem verdict_for_file_none (ext : String) (c vc : Option String)
    (f l : Option ℚ) (t : ℚ) (h : str_lower ext ∉ RAW_EXTS) :
    verdict_for_file ext none c vc f l t = verdict_no_meta c vc f l := by
  simp [verdict_for_file, h]

/-- Unfolding of `verdict_for_file` on a non-raw extension with a probed
duration at most 0.001 s. -/
theorem verdict_for_file_small (ext : String) (d : ℚ) (c vc : Option String)
    (f l : Option ℚ) (t : ℚ) (h : str_lower ext ∉ RAW_EXTS)
    (hd : d ≤ Rat.divInt 1 1000) :
    verdict_for_file ext (some d) c vc f l t = verdict_no_meta c vc f l := by
  simp [verdict_for_file, h, hd]

/-- Unfolding of `verdict_for_file` on a non-raw extension with a usable
probed duration. -/
theorem verdict_for_file_meta (ext : String) (d : ℚ) (c vc : Option String)
    (f l : Option ℚ) (t : ℚ) (h : str_lower ext ∉ RAW_EXTS)
    (hd : ¬ d ≤ Rat.divInt 1 1000) :
    verdict_for_file ext (some d) c vc f l t = verdict_with_meta d c vc f l t := by
  simp [verdict_for_file, h, hd]

/-- A nonempty list always has a last element. -/
theorem getLast?_cons_is_some {α : Type} (b : α) (tl : List α) :
    ∃ x, (b :: tl).getLast? = some x := by
  induction tl generalizing b with
  | nil => exact ⟨b, rfl⟩
  | cons c tl ih =>
    rcases ih c with ⟨x, hx⟩
    exact ⟨x, by rw [List.getLast?_cons_cons, hx]⟩

/-- Every branch of `verdict_no_meta` reports container and codec. -/
theorem verdict_no_meta_keys (c vc : Option String) (f l : Option ℚ) :
    has_key (verdict_no_meta c vc f l).2.2 "container" = true ∧
      has_key (verdict_no_meta c vc f l).2.2 "vcodec" = true := by
  unfold verdict_no_meta
  rcases f with _ | fv <;> rcases l with _ | lv
  · simp [has_key]
  · simp [has_key]
  · simp [has_key]
  · by_cases hle : lv ≤ fv <;> simp [hle, has_key]

/-- Every branch of `verdict_with_meta` reports container and codec. -/
theorem verdict_with_meta_keys (md : ℚ) (c vc : Option String) (f l : Option ℚ) (t : ℚ) :
    has_key (verdict_with_meta md c vc f l t).2.2 "container" = true ∧
      has_key (verdict_with_meta md c vc f l t).2.2 "vcodec" = true := by
  unfold verdict_with_meta
  rcases f with _ | fv <;> rcases l with _ | lv
  · simp [has_key]
  · simp [has_key]
  · simp [has_key]
  · by_cases hle : lv ≤ fv
    · simp [hle, has_key]
    · simp only [if_neg hle]
      split <;> simp [has_key]

/-- C2: for every file whose lower-cased extension is a raw-bitstream
extension, the verdict is WRAP, and the whole result is independent of every
probe/timeline value and of the tolerance. -/
theorem C2_raw_always_wrap (ext : String) (h : str_lower ext ∈ RAW_EXTS)
    (md : Option ℚ) (c vc : Option String) (f l : Option ℚ) (t : ℚ)
    (md' : Option ℚ) (c' vc' : Option String) (f' l' : Option ℚ) (t' : ℚ) :
    (verdict_for_file ext md c vc f l t).1 = .WRAP ∧
      verdict_for_file ext md c vc f l t = verdict_for_file ext md' c' vc' f' l' t' := by
  constructor <;> simp [verdict_for_file, h]

/-- Witness for C2 at `".h264"`: WRAP, and two thoroughly different
probe/timeline inputs give the identical result. -/
theorem C2_raw_always_wrap_witness :
    (verdict_for_file ".h264" (some 10) (some "a") (some "b") (some 0) (some 9) 0).1 = .WRAP ∧
      verdict_for_file ".h264" (some 10) (some "a") (some "b") (some 0) (some 9) 0
        = verdict_for_file ".h264" none none none none none 1 :=
  C2_raw_always_wrap ".h264" (by decide)
    (some 10) (some "a") (some "b") (some 0) (some 9) 0 none none none none none 1

/-- C4: every repair strategy succeeds iff the external process exits with
status zero AND the destination exists AND its size is positive; in
particular a zero exit with a missing destination is reported as failure. -/
theorem C4_success_criterion (exec : Exec) (src dst : String) (fps : ℤ)
    (om : Bool) (fi : Option ℤ) :
    (wrap_raw exec src dst fps = true ↔
      ((exec (wrap_cmd src dst fps)).returncode = 0 ∧
        (exec (wrap_cmd src dst fps)).dst_exists = true ∧
        0 < (exec (wrap_cmd src dst fps)).dst_size))
    ∧ (remux_to_mkv exec src dst = true ↔
      ((exec (remux_cmd src dst)).returncode = 0 ∧
        (exec (remux_cmd src dst)).dst_exists = true ∧
        0 < (exec (remux_cmd src dst)).dst_size))
    ∧ (mp4_faststart_timescale exec src dst = true ↔
      ((exec (faststart_cmd src dst)).returncode = 0 ∧
        (exec (faststart_cmd src dst)).dst_exists = true ∧
        0 < (exec (faststart_cmd src dst)).dst_size))
    ∧ (reencode_cfr exec src dst om fi = true ↔
      ((exec (reencode_cmd src dst om fi)).returncode = 0 ∧
        (exec (reencode_cmd src dst om fi)).dst_exists = true ∧
        0 < (exec (reencode_cmd src dst om fi)).dst_size))
    ∧ wrap_raw (fun _ => ⟨0, false, 7⟩) src dst fps = false := by
  refine ⟨?_, ?_, ?_, ?_, ?_⟩ <;>
    simp [wrap_raw, remux_to_mkv, mp4_faststart_timescale, reencode_cfr,
      Bool.and_eq_true, decide_eq_true_eq, and_assoc]

/-- C5: on a probe whose container-level duration is absent and whose streams
report durations 5 and 10, `get_meta` resolves the duration to 5 — the first
positive stream duration — while the spec's resolution ("the maximum of any
individual stream's reported duration greater than zero") yields 10.  The
`max(dur, sv)` branch in the source's own fallback expression is unreachable
behind the `if dur is None` guard, so the code contradicts its evident
intent. -/
theorem C5_stream_duration_first_not_max :
    get_meta (some ⟨⟨none, some "x", none⟩,
      [⟨some "video", some "h264", some (some 5)⟩,
       ⟨some "video", some "h264", some (some 10)⟩]⟩)
      = (some 5, some "x", some "h264", none)
    ∧ spec_stream_duration_max
        [⟨some "video", some "h264", some (some 5)⟩,
         ⟨some "video", some "h264", some (some 10)⟩] = some 10
    ∧ (5 : ℚ) ≠ 10 :=
  ⟨by decide, by decide, by decide⟩

/-- Counterexample to C7 as stated: on the WRAP branch the diagnostics
payload is `{"ext": ...}` — it contains neither the container nor the
codec, even when both are available. -/
theorem C7_counterexample :
    has_key (verdict_for_file ".h264" (some 10) (some "mpeg,x") (some "h264")
      (some 0) (some 10) 0).2.2 "container" = false ∧
    has_key (verdict_for_file ".h264" (some 10) (some "mpeg,x") (some "h264")
      (some 0) (some 10) 0).2.2 "vcodec" = false := by
  constructor <;> decide

/-- C7 (amended): every non-WRAP branch of the verdict engine returns a
diagnostics payload containing the container and the video codec; the WRAP
branch's payload holds only the lower-cased extension. -/
theorem C7_diagnostics_amended (ext : String) (md : Option ℚ) (c vc : Option String)
    (f l : Option ℚ) (t : ℚ) :
    (str_lower ext ∉ RAW_EXTS →
      has_key (verdict_for_file ext md c vc f l t).2.2 "container" = true ∧
        has_key (verdict_for_file ext md c vc f l t).2.2 "vcodec" = true)
    ∧ (str_lower ext ∈ RAW_EXTS →
        (verdict_for_file ext md c vc f l t).2.2 = [("ext", .s (str_lower ext))]) := by
  constructor
  · intro h
    cases md with
    | none =>
      rw [verdict_for_file_none ext c vc f l t h]
      exact verdict_no_meta_keys c vc f l
    | some d =>
      by_cases hd : d ≤ Rat.divInt 1 1000
      · rw [verdict_for_file_small ext d c vc f l t h hd]
        exact verdict_no_meta_keys c vc f l
      · rw [verdict_for_file_meta ext d c vc f l t h hd]
        exact verdict_with_meta_keys d c vc f l t
  · intro h
    rw [verdict_for_file_raw ext md c vc f l t h]

/-- Witness for the amended C7: a non-raw input carries both keys, and a raw
input carries exactly the extension entry. -/
theorem C7_diagnostics_amended_witness :
    (has_key (verdict_for_file ".mp4" none (some "x") (some "y") none none 0).2.2
        "container" = true ∧
      has_key (verdict_for_file ".mp4" none (some "x") (some "y") none none 0).2.2
        "vcodec" = true)
    ∧ (verdict_for_file ".h264" none (some "x") (some "y") none none 0).2.2
        = [("ext", .s (str_lower ".h264"))] :=
  ⟨(C7_diagnostics_amended ".mp4" none (some "x") (some "y") none none 0).1 (by decide),
    (C7_diagnostics_amended ".h264" none (some "x") (some "y") none none 0).2 (by decide)⟩

/-- C9: for an OK verdict, and for any verdict under dry-run, `process_one`
invokes no strategy and leaves the filesystem untouched, returning action
`"none"` (OK) or `"planned"` (dry-run) with empty output and no error. -/
theorem C9_ok_or_dryrun_no_mutation (exec : Exec) (fs0 : FSt) (p : MPath)
    (md : Option ℚ) (c vc : Option String) (f l : Option ℚ) (t : ℚ)
    (try_fps : List ℤ) (dry ip pm : Bool)
    (h : (verdict_for_file p.suffix md c vc f l t).1 = .OK ∨ dry = true) :
    (process_one exec fs0 p md c vc f l t try_fps dry ip pm).action
      = (if (verdict_for_file p.suffix md c vc f l t).1 = .OK then "none" else "planned")
    ∧ (process_one exec fs0 p md c vc f l t try_fps dry ip pm).out = ""
    ∧ (process_one exec fs0 p md c vc f l t try_fps dry ip pm).err = none
    ∧ (process_one exec fs0 p md c vc f l t try_fps dry ip pm).fs = fs0
    ∧ (process_one exec fs0 p md c vc f l t try_fps dry ip pm).attempts = [] := by
  by_cases hv : (verdict_for_file p.suffix md c vc f l t).1 = .OK
  · simp [process_one, hv]
  · rcases h with h | h
    · exact absurd h hv
    · simp [process_one, hv, h]

/-- Witness for C9: a dry run on a FIX file plans and does not touch the
filesystem. -/
theorem C9_ok_or_dryrun_no_mutation_witness :
    (process_one (fun _ => ⟨0, true, 1⟩) [("video.mp4", .source)] ⟨"video", ".mp4"⟩
        none none none none none 0 [25, 30] true true false).action = "planned"
    ∧ (process_one (fun _ => ⟨0, true, 1⟩) [("video.mp4", .source)] ⟨"video", ".mp4"⟩
        none none none none none 0 [25, 30] true true false).fs = [("video.mp4", .source)]
    ∧ (process_one (fun _ => ⟨0, true, 1⟩) [("video.mp4", .source)] ⟨"video", ".mp4"⟩
        none none none none none 0 [25, 30] true true false).attempts = [] := by
  have h := C9_ok_or_dryrun_no_mutation (fun _ => ⟨0, true, 1⟩) [("video.mp4", .source)]
    ⟨"video", ".mp4"⟩ none none none none none 0 [25, 30] true true false (Or.inr rfl)
  refine ⟨?_, h.2.2.2.1, h.2.2.2.2⟩
  rw [h.1]
  decide

/-- Folding the sampler's step from a state where both components are set
keeps `first` and tracks the last parsed value. -/
theorem pts_foldl_some (lines : List (Option ℚ)) (fv : ℚ) : ∀ lv : ℚ,
    lines.foldl pts_fold_step (some fv, some lv)
      = (some fv, some (((lines.filterMap id).getLast?).getD lv)) := by
  induction lines with
  | nil => intro lv; simp
  | cons a rest ih =>
    intro lv
    cases a with
    | none => simpa [pts_fold_step] using ih lv
    | some v =>
      rw [List.foldl_cons]
      simp only [pts_fold_step]
      rw [ih v]
      simp only [List.filterMap_cons, id]
      cases hfr : rest.filterMap id with
      | nil => simp
      | cons b tl =>
        obtain ⟨x, hx⟩ := getLast?_cons_is_some b tl
        simp [hx]

/-- Characterisation of the packet sampler: `first` is the head of the parsed
values, `last` their last. -/
theorem get_packet_char (lines : List (Option ℚ)) :
    get_packet_first_last_pts lines
      = ((lines.filterMap id).head?, (lines.filterMap id).getLast?) := by
  induction lines with
  | nil => rfl
  | cons a rest ih =>
    cases a with
    | none =>
      simpa [get_packet_first_last_pts, pts_fold_step, List.filterMap_cons] using ih
    | some v =>
      unfold get_packet_first_last_pts
      rw [List.foldl_cons]
      simp only [pts_fold_step]
      rw [pts_foldl_some rest v v]
      simp only [List.filterMap_cons, id]
      cases hfr : rest.filterMap id with
      | nil => simp
      | cons b tl =>
        obtain ⟨x, hx⟩ := getLast?_cons_is_some b tl
        simp [hx]

/-- C10: `firstPts` is null iff `lastPts` is null, and an input yielding
exactly one parseable timestamp produces `lastPts = firstPts`. -/
theorem C10_first_none_iff_last_none (lines : List (Option ℚ)) :
    ((get_packet_first_last_pts lines).1 = none ↔ (get_packet_first_last_pts lines).2 = none)
    ∧ ∀ v : ℚ, lines.filterMap id = [v] →
        get_packet_first_last_pts lines = (some v, some v) := by
  rw [get_packet_char]
  constructor
  · simp
  · intro v hv
    rw [hv]
    rfl

/-- Witness for C10: a stream with exactly one parseable line gives equal
first/last timestamps. -/
theorem C10_first_none_iff_last_none_witness :
    get_packet_first_last_pts [none, some 3] = (some 3, some 3) :=
  (C10_first_none_iff_last_none [none, some 3]).2 3 (by decide)

/-- The verdict of `verdict_with_meta` on a usable timeline is decided by
`divergence > tol` or the bad container/codec combination. -/
theorem verdict_with_meta_fst (md : ℚ) (c vc : Option String) (fv lv t : ℚ)
    (hlf : ¬ lv ≤ fv) :
    (verdict_with_meta md c vc (some fv) (some lv) t).1
      = (if t < |max 0 (lv - fv) - md| / max md (Rat.divInt 1 1000000) ∨
            (str_contains_sub (c.getD "") "mpeg" &&
              (vc == some "h264" || vc == some "hevc")) = true
          then Verdict.FIX else Verdict.OK) := by
  simp only [verdict_with_meta, if_neg hlf]
  split <;> rfl

/-- C1: on a non-raw file with a probed duration above 0.001 s and a usable
packet timeline, the verdict is FIX exactly when the divergence exceeds the
tolerance or the container/codec combination is the unreliable one, and OK
otherwise.  (A probed duration exists only when the raw-extension
short-circuit did not fire, hence the non-raw hypothesis.) -/
theorem C1_divergence_or_badcombo (ext : String) (d : ℚ) (c vc : Option String)
    (fv lv t : ℚ) (hraw : str_lower ext ∉ RAW_EXTS) (hd : Rat.divInt 1 1000 < d)
    (hfl : fv < lv) :
    ((verdict_for_file ext (some d) c vc (some fv) (some lv) t).1 = .FIX ↔
      (t < |max 0 (lv - fv) - d| / max d (Rat.divInt 1 1000000) ∨
        (str_contains_sub (c.getD "") "mpeg" &&
          (vc == some "h264" || vc == some "hevc")) = true))
    ∧ ((verdict_for_file ext (some d) c vc (some fv) (some lv) t).1 = .OK ↔
      ¬ (t < |max 0 (lv - fv) - d| / max d (Rat.divInt 1 1000000) ∨
        (str_contains_sub (c.getD "") "mpeg" &&
          (vc == some "h264" || vc == some "hevc")) = true)) := by
  rw [verdict_for_file_meta ext d c vc (some fv) (some lv) t hraw (not_le.mpr hd),
    verdict_with_meta_fst d c vc fv lv t (not_le.mpr hfl)]
  refine ⟨⟨fun h => ?_, fun hc => by rw [if_pos hc]⟩,
    ⟨fun h hc => ?_, fun hc => by rw [if_neg hc]⟩⟩
  · by_contra hc
    rw [if_neg hc] at h
    exact Verdict.noConfusion h
  · rw [if_pos hc] at h
    exact Verdict.noConfusion h

/-- Witness for C1: container "mpeg" with codec h264 forces FIX even though
the divergence is 0 (meta and packet duration both 10 s). -/
theorem C1_divergence_or_badcombo_witness :
    (verdict_for_file ".mp4" (some 10) (some "mpeg") (some "h264") (some 0) (some 10)
      (Rat.divInt 1 5)).1 = .FIX := by
  have h := C1_divergence_or_badcombo ".mp4" 10 (some "mpeg") (some "h264") 0 10
    (Rat.divInt 1 5) (by decide) (by decide) (by decide)
  exact h.1.mpr (Or.inr (by decide))

/-- `verdict_no_meta` always returns FIX. -/
theorem verdict_no_meta_fst (c vc : Option String) (f l : Option ℚ) :
    (verdict_no_meta c vc f l).1 = .FIX := by
  unfold verdict_no_meta
  rcases f with _ | fv <;> rcases l with _ | lv
  · rfl
  · rfl
  · rfl
  · by_cases hle : lv ≤ fv <;> simp [hle]

/-- On an unusable timeline, `verdict_no_meta` reports the "no usable
duration" reason. -/
theorem verdict_no_meta_unusable (c vc : Option String) (f l : Option ℚ)
    (h : f = none ∨ l = none ∨ ∃ fv lv : ℚ, f = some fv ∧ l = some lv ∧ lv ≤ fv) :
    (verdict_no_meta c vc f l).2.1 = .semDuracaoSemPts := by
  unfold verdict_no_meta
  rcases f with _ | fv <;> rcases l with _ | lv
  · rfl
  · rfl
  · rfl
  · rcases h with h | h | ⟨fv', lv', hf, hl, hle⟩
    · exact absurd h (by simp)
    · exact absurd h (by simp)
    · cases Option.some.inj hf
      cases Option.some.inj hl
      simp [hle]

/-- On a usable timeline, `verdict_no_meta` reports the packet-estimated
duration `lastPts - firstPts`. -/
theorem verdict_no_meta_pkt (c vc : Option String) (fv lv : ℚ) (h : fv < lv) :
    (verdict_no_meta c vc (some fv) (some lv)).2.1 = .semDuracaoPktSugere (lv - fv) := by
  unfold verdict_no_meta
  simp [not_le.mpr h]

/-- C8: a non-raw file whose probed duration is null or at most 0.001 s gets
verdict FIX — with the "no usable duration" reason when the packet timeline is
unusable, and otherwise with a reason carrying the estimate
`lastPts - firstPts`. -/
theorem C8_no_duration_fix (ext : String) (md : Option ℚ) (c vc : Option String)
    (f l : Option ℚ) (t : ℚ) (hraw : str_lower ext ∉ RAW_EXTS)
    (hmd : md = none ∨ ∃ d, md = some d ∧ d ≤ Rat.divInt 1 1000) :
    (verdict_for_file ext md c vc f l t).1 = .FIX
    ∧ ((f = none ∨ l = none ∨ ∃ fv lv : ℚ, f = some fv ∧ l = some lv ∧ lv ≤ fv) →
        (verdict_for_file ext md c vc f l t).2.1 = .semDuracaoSemPts)
    ∧ (∀ fv lv : ℚ, f = some fv → l = some lv → fv < lv →
        (verdict_for_file ext md c vc f l t).2.1 = .semDuracaoPktSugere (lv - fv)) := by
  have hred : verdict_for_file ext md c vc f l t = verdict_no_meta c vc f l := by
    rcases hmd with h | ⟨d, hdq, hd⟩
    · rw [h]
      exact verdict_for_file_none ext c vc f l t hraw
    · rw [hdq]
      exact verdict_for_file_small ext d c vc f l t hraw hd
  rw [hred]
  refine ⟨verdict_no_meta_fst c vc f l, verdict_no_meta_unusable c vc f l, ?_⟩
  intro fv lv hf hl hfl
  rw [hf, hl]
  exact verdict_no_meta_pkt c vc fv lv hfl

/-- Witness for C8: no probed duration, packets at 0 s and 10 s: FIX with the
estimate `10 - 0`. -/
theorem C8_no_duration_fix_witness :
    (verdict_for_file ".mp4" none (some "x") (some "h264") (some 0) (some 10) 0).1 = .FIX
    ∧ (verdict_for_file ".mp4" none (some "x") (some "h264") (some 0) (some 10) 0).2.1
        = .semDuracaoPktSugere (10 - 0) := by
  have h := C8_no_duration_fix ".mp4" none (some "x") (some "h264") (some 0) (some 10) 0
    (by decide) (Or.inl rfl)
  exact ⟨h.1, h.2.2 0 10 rfl rfl (by decide)⟩

/-- `process_one` on a FIX verdict (live run) is the FIX chain. -/
theorem process_one_fix (exec : Exec) (fs0 : FSt) (p : MPath) (md : Option ℚ)
    (c vc : Option String) (f l : Option ℚ) (t : ℚ) (try_fps : List ℤ) (ip pm : Bool)
    (hv : (verdict_for_file p.suffix md c vc f l t).1 = .FIX) :
    process_one exec fs0 p md c vc f l t try_fps false ip pm
      = fix_chain exec fs0 p (if pm then ".mkv" else ".mp4") ip pm try_fps .FIX := by
  simp [process_one, hv]

/-- `process_one` on a WRAP verdict (live run) is the WRAP loop. -/
theorem process_one_wrap (exec : Exec) (fs0 : FSt) (p : MPath) (md : Option ℚ)
    (c vc : Option String) (f l : Option ℚ) (t : ℚ) (try_fps : List ℤ) (ip pm : Bool)
    (hv : (verdict_for_file p.suffix md c vc f l t).1 = .WRAP) :
    process_one exec fs0 p md c vc f l t try_fps false ip pm
      = wrap_loop exec fs0 p (if pm then ".mkv" else ".mp4") ip .WRAP try_fps := by
  simp [process_one, hv]

/-- The re-encode loop attempts exactly the prefix of its candidate list up to
the first success. -/
theorem reencode_loop_attempts (exec : Exec) (fs : FSt) (p : MPath) (eo : String)
    (ip pm : Bool) (v : Verdict) : ∀ fl : List (Option ℤ),
    (reencode_loop exec fs p eo ip pm v fl).attempts
      = take_through_first (fix_attempt_ok exec p eo ip) (fl.map (Strategy.reencode pm)) := by
  intro fl
  induction fl with
  | nil => rfl
  | cons fi rest ih =>
    cases hok : reencode_cfr exec p.name (reenc_tmp_name p eo ip) pm fi with
    | true =>
      cases ip <;> simp [reencode_loop, take_through_first, fix_attempt_ok, hok]
    | false =>
      simp [reencode_loop, take_through_first, fix_attempt_ok, hok, ih]

/-- If every candidate fails, the re-encode loop reports `reencode_failed`
and leaves the filesystem unchanged. -/
theorem reencode_loop_fail (exec : Exec) (fs : FSt) (p : MPath) (eo : String)
    (ip pm : Bool) (v : Verdict) : ∀ fl : List (Option ℤ),
    (∀ fi ∈ fl, reencode_cfr exec p.name (reenc_tmp_name p eo ip) pm fi = false) →
    reencode_loop exec fs p eo ip pm v fl
      = ⟨v, "reencode_failed", "", some "Re-encode CFR falhou com todos os FPS.", fs,
          fl.map (Strategy.reencode pm)⟩ := by
  intro fl
  induction fl with
  | nil => intro _; rfl
  | cons fi rest ih =>
    intro hall
    have h0 := hall fi (by simp)
    have hrest := ih (fun x hx => hall x (by simp [hx]))
    simp [reencode_loop, h0, hrest]

/-- C3: on a FIX verdict with live repair, the strategies attempted are
exactly the prefix of `remux, faststart, reencode(no hint), reencode(fps…)`
(candidates in caller order) up to the first success; if every attempt fails
the outcome is `reencode_failed` and the filesystem is unchanged. -/
theorem C3_fix_chain_order (exec : Exec) (fs0 : FSt) (p : MPath) (md : Option ℚ)
    (c vc : Option String) (f l : Option ℚ) (t : ℚ) (try_fps : List ℤ) (ip pm : Bool)
    (hv : (verdict_for_file p.suffix md c vc f l t).1 = .FIX) :
    (process_one exec fs0 p md c vc f l t try_fps false ip pm).attempts
      = take_through_first (fix_attempt_ok exec p (if pm then ".mkv" else ".mp4") ip)
          (Strategy.remux :: Strategy.faststart ::
            (none :: try_fps.map some).map (Strategy.reencode pm))
    ∧ ((∀ s ∈ (Strategy.remux :: Strategy.faststart ::
            (none :: try_fps.map some).map (Strategy.reencode pm)),
          fix_attempt_ok exec p (if pm then ".mkv" else ".mp4") ip s = false) →
        (process_one exec fs0 p md c vc f l t try_fps false ip pm).action = "reencode_failed"
        ∧ (process_one exec fs0 p md c vc f l t try_fps false ip pm).err
            = some "Re-encode CFR falhou com todos os FPS."
        ∧ (process_one exec fs0 p md c vc f l t try_fps false ip pm).fs = fs0) := by
  rw [process_one_fix exec fs0 p md c vc f l t try_fps ip pm hv]
  constructor
  · unfold fix_chain
    cases hr : remux_to_mkv exec p.name (mkv_tmp_name p ip) with
    | true => cases ip <;> simp [take_through_first, fix_attempt_ok, hr]
    | false =>
      cases hf : mp4_faststart_timescale exec p.name (mp4_tmp_name p ip) with
      | true => cases ip <;> simp [take_through_first, fix_attempt_ok, hr, hf]
      | false =>
        simp [take_through_first, fix_attempt_ok, hr, hf,
          reencode_loop_attempts exec fs0 p (if pm then ".mkv" else ".mp4") ip pm .FIX]
  · intro hall
    have hr : remux_to_mkv exec p.name (mkv_tmp_name p ip) = false :=
      hall .remux (by simp)
    have hf : mp4_faststart_timescale exec p.name (mp4_tmp_name p ip) = false :=
      hall .faststart (by simp)
    have hre : ∀ fi ∈ (none :: try_fps.map some),
        reencode_cfr exec p.name
          (reenc_tmp_name p (if pm then ".mkv" else ".mp4") ip) pm fi = false := by
      intro fi hfi
      refine hall (.reencode pm fi) ?_
      simp only [List.mem_cons]
      right; right
      exact List.mem_map_of_mem _ hfi
    have hloop := reencode_loop_fail exec fs0 p (if pm then ".mkv" else ".mp4") ip pm .FIX
      (none :: try_fps.map some) hre
    simp [fix_chain, hr, hf, hloop]

/-- Witness for C3: with every invocation failing, the chain attempts
remux, faststart, then re-encode with no hint, 25 and 30, reports
`reencode_failed`, and leaves the filesystem unchanged. -/
theorem C3_fix_chain_order_witness :
    (process_one (fun _ => ⟨1, false, 0⟩) [("video.mp4", .source)] ⟨"video", ".mp4"⟩
        none none none none none 0 [25, 30] false true false).attempts
      = [.remux, .faststart, .reencode false none,
          .reencode false (some 25), .reencode false (some 30)]
    ∧ (process_one (fun _ => ⟨1, false, 0⟩) [("video.mp4", .source)] ⟨"video", ".mp4"⟩
        none none none none none 0 [25, 30] false true false).action = "reencode_failed"
    ∧ (process_one (fun _ => ⟨1, false, 0⟩) [("video.mp4", .source)] ⟨"video", ".mp4"⟩
        none none none none none 0 [25, 30] false true false).fs
      = [("video.mp4", .source)] := by
  have h := C3_fix_chain_order (fun _ => ⟨1, false, 0⟩) [("video.mp4", .source)]
    ⟨"video", ".mp4"⟩ none none none none none 0 [25, 30] true false (by decide)
  have h2 := h.2 (by decide)
  refine ⟨?_, h2.1, h2.2.2⟩
  rw [h.1]
  decide

/-- Strings of different lengths differ. -/
theorem str_ne_of_length {a b : String} (h : ¬ a.length = b.length) : a ≠ b :=
  fun he => h (congrArg String.length he)

/-- A video extension (length 3–5) differs from any long derived tail, both
bare and with `".bak"` appended. -/
theorem tail_len_ne {suffix tail : String} (hlo : 3 ≤ suffix.length)
    (hhi : suffix.length ≤ 5) (hlen : 10 ≤ tail.length) :
    suffix ≠ tail ∧ suffix ++ ".bak" ≠ tail := by
  have hb : ".bak".length = 4 := rfl
  constructor
  · apply str_ne_of_length
    omega
  · apply str_ne_of_length
    rw [String.length_append]
    omega

/-- A four-character output extension never equals `suffix ++ ".bak"`. -/
theorem bak_ne_short {suffix eo : String} (hlo : 3 ≤ suffix.length) (heo : eo.length = 4) :
    eo ≠ suffix ++ ".bak" := by
  apply str_ne_of_length
  have hb : ".bak".length = 4 := rfl
  rw [String.length_append]
  omega

/-- Shape of the filesystem after the in-place promotion: exactly the final
output and one backup of the original. -/
theorem promote_shape (stem suffix tmp final : String) (cnt : FileContent)
    (oldBak : Option FileContent)
    (h1 : tmp ≠ stem ++ suffix) (h2 : tmp ≠ stem ++ (suffix ++ ".bak"))
    (h3 : final ≠ stem ++ (suffix ++ ".bak"))
    (h4 : stem ++ suffix ≠ stem ++ (suffix ++ ".bak")) :
    inplace_promote (fsSet (initial_fs stem suffix oldBak) tmp cnt) ⟨stem, suffix⟩ tmp final
      = [(final, cnt), (stem ++ (suffix ++ ".bak"), FileContent.source)] := by
  cases oldBak <;>
    simp [initial_fs, inplace_promote, fsSet, fsErase, fsRename, fsGet,
      MPath.name, MPath.with_suffix_name, h1, h2, h3, h4,
      Ne.symm h1, Ne.symm h2, Ne.symm h3, Ne.symm h4]

/-- An in-place WRAP loop that ends without error ended at a successful
candidate, with the promoted filesystem. -/
theorem wrap_loop_success (exec : Exec) (fs : FSt) (p : MPath) (eo : String)
    (v : Verdict) : ∀ fl : List ℤ, (wrap_loop exec fs p eo true v fl).err = none →
    ∃ fps : ℤ, wrap_raw exec p.name (wrap_tmp_name p eo true fps) fps = true ∧
      (wrap_loop exec fs p eo true v fl).out = p.with_suffix_name eo ∧
      (wrap_loop exec fs p eo true v fl).fs
        = inplace_promote (fsSet fs (wrap_tmp_name p eo true fps) (.output (.wrap fps)))
            p (wrap_tmp_name p eo true fps) (p.with_suffix_name eo) := by
  intro fl
  induction fl with
  | nil => intro h; exact absurd h (by simp [wrap_loop])
  | cons fps rest ih =>
    intro h
    cases hok : wrap_raw exec p.name (wrap_tmp_name p eo true fps) fps with
    | true => exact ⟨fps, hok, by simp [wrap_loop, hok], by simp [wrap_loop, hok]⟩
    | false =>
      have h' : (wrap_loop exec fs p eo true v rest).err = none := by
        simpa [wrap_loop, hok] using h
      obtain ⟨fps', hok', hout, hfs⟩ := ih h'
      exact ⟨fps', hok', by simpa [wrap_loop, hok] using hout,
        by simpa [wrap_loop, hok] using hfs⟩

/-- An in-place re-encode loop that ends without error ended at a successful
candidate, with the promoted filesystem. -/
theorem reencode_loop_success (exec : Exec) (fs : FSt) (p : MPath) (eo : String)
    (pm : Bool) (v : Verdict) : ∀ fl : List (Option ℤ),
    (reencode_loop exec fs p eo true pm v fl).err = none →
    ∃ fi : Option ℤ,
      reencode_cfr exec p.name (reenc_tmp_name p eo true) pm fi = true ∧
      (reencode_loop exec fs p eo true pm v fl).out = p.with_suffix_name eo ∧
      (reencode_loop exec fs p eo true pm v fl).fs
        = inplace_promote (fsSet fs (reenc_tmp_name p eo true) (.output (.reencode pm fi)))
            p (reenc_tmp_name p eo true) (p.with_suffix_name eo) := by
  intro fl
  induction fl with
  | nil => intro h; exact absurd h (by simp [reencode_loop])
  | cons fi rest ih =>
    intro h
    cases hok : reencode_cfr exec p.name (reenc_tmp_name p eo true) pm fi with
    | true => exact ⟨fi, hok, by simp [reencode_loop, hok], by simp [reencode_loop, hok]⟩
    | false =>
      have h' : (reencode_loop exec fs p eo true pm v rest).err = none := by
        simpa [reencode_loop, hok] using h
      obtain ⟨fi', hok', hout, hfs⟩ := ih h'
      exact ⟨fi', hok', by simpa [reencode_loop, hok] using hout,
        by simpa [reencode_loop, hok] using hfs⟩

/-- A temporary name (tail of length at least 10) collides neither with the
original name nor with the backup name. -/
theorem tmp_name_ne (stem suffix tail : String) (hlo : 3 ≤ suffix.length)
    (hhi : suffix.length ≤ 5) (hlen : 10 ≤ tail.length) :
    stem ++ tail ≠ stem ++ suffix ∧ stem ++ tail ≠ stem ++ (suffix ++ ".bak") :=
  ⟨str_ne_of_tail_ne (Ne.symm (tail_len_ne hlo hhi hlen).1),
   str_ne_of_tail_ne (Ne.symm (tail_len_ne hlo hhi hlen).2)⟩

/-- A final name with a four-character extension differs from the backup name. -/
theorem final_name_ne (stem suffix eo : String) (hlo : 3 ≤ suffix.length)
    (heo : eo.length = 4) : stem ++ eo ≠ stem ++ (suffix ++ ".bak") :=
  str_ne_of_tail_ne (bak_ne_short hlo heo)

/-- Counterexample to C6 as stated: remuxing `video.mp4` in place succeeds,
but the repaired content lands at `video.mkv` — the original name `video.mp4`
holds nothing afterwards (only a different name holds the repaired file). -/
theorem C6_counterexample :
    (process_one (fun _ => ⟨0, true, 7⟩) [("video.mp4", .source)] ⟨"video", ".mp4"⟩
        none none none none none 0 [25, 30] false true false).err = none
    ∧ (process_one (fun _ => ⟨0, true, 7⟩) [("video.mp4", .source)] ⟨"video", ".mp4"⟩
        none none none none none 0 [25, 30] false true false).action = "remux_mkv inplace"
    ∧ fsGet (process_one (fun _ => ⟨0, true, 7⟩) [("video.mp4", .source)] ⟨"video", ".mp4"⟩
        none none none none none 0 [25, 30] false true false).fs "video.mp4" = none := by
  refine ⟨by decide, by decide, by decide⟩

/-- C6 (amended): after every successful in-place repair of a file with a
recognized video extension, the filesystem holds exactly two files: the
repaired output at the reported output path (the original stem with the
winning strategy's target extension — the original name itself only when that
extension is unchanged, the faststart strategy reusing it verbatim), and a
single backup named original-full-name + ".bak" holding the original content
(a stale backup of that name, if any, was removed first); no temporary file
remains, and the output path never collides with the backup name. -/
theorem C6_inplace_backup (exec : Exec) (stem suffix : String) (md : Option ℚ)
    (c vc : Option String) (f l : Option ℚ) (t : ℚ) (try_fps : List ℤ) (pm : Bool)
    (oldBak : Option FileContent)
    (hsuf : suffix ∈ VIDEO_EXTS)
    (hv : (verdict_for_file suffix md c vc f l t).1 ≠ .OK)
    (herr : (process_one exec (initial_fs stem suffix oldBak) ⟨stem, suffix⟩ md c vc f l t
        try_fps false true pm).err = none) :
    ∃ strat : Strategy,
      (process_one exec (initial_fs stem suffix oldBak) ⟨stem, suffix⟩ md c vc f l t
          try_fps false true pm).fs
        = [((process_one exec (initial_fs stem suffix oldBak) ⟨stem, suffix⟩ md c vc f l t
              try_fps false true pm).out, FileContent.output strat),
           ((stem ++ suffix) ++ ".bak", FileContent.source)]
      ∧ (process_one exec (initial_fs stem suffix oldBak) ⟨stem, suffix⟩ md c vc f l t
          try_fps false true pm).out ≠ (stem ++ suffix) ++ ".bak" := by
  have hlo : 3 ≤ suffix.length := by fin_cases hsuf <;> decide
  have hhi : suffix.length ≤ 5 := by fin_cases hsuf <;> decide
  have hassoc : (stem ++ suffix) ++ ".bak" = stem ++ (suffix ++ ".bak") :=
    str_append_assoc stem suffix ".bak"
  rw [hassoc]
  have h4 : stem ++ suffix ≠ stem ++ (suffix ++ ".bak") :=
    str_ne_of_tail_ne (str_ne_self_append_bak suffix)
  have heo4 : (if pm = true then ".mkv" else ".mp4").length = 4 := by
    cases pm <;> rfl
  have h12 : "_wrapped_tmp".length = 12 := rfl
  have h10 : "_reenc_tmp".length = 10 := rfl
  cases hV : (verdict_for_file suffix md c vc f l t).1 with
  | OK => exact absurd hV hv
  | WRAP =>
    have hpr := process_one_wrap exec (initial_fs stem suffix oldBak) ⟨stem, suffix⟩
      md c vc f l t try_fps true pm hV
    rw [hpr] at herr ⊢
    obtain ⟨fps, hok, hout, hfs⟩ := wrap_loop_success exec (initial_fs stem suffix oldBak)
      ⟨stem, suffix⟩ (if pm = true then ".mkv" else ".mp4") .WRAP try_fps herr
    have htail : 10 ≤ ("_wrapped_tmp" ++ (if pm = true then ".mkv" else ".mp4")).length := by
      rw [String.length_append]
      omega
    have htmp := tmp_name_ne stem suffix
      ("_wrapped_tmp" ++ (if pm = true then ".mkv" else ".mp4")) hlo hhi htail
    refine ⟨.wrap fps, ?_, ?_⟩
    · rw [hfs, hout]
      exact promote_shape stem suffix _ _ _ oldBak htmp.1 htmp.2
        (final_name_ne stem suffix _ hlo heo4) h4
    · rw [hout]
      exact final_name_ne stem suffix _ hlo heo4
  | FIX =>
    have hpr := process_one_fix exec (initial_fs stem suffix oldBak) ⟨stem, suffix⟩
      md c vc f l t try_fps true pm hV
    rw [hpr] at herr ⊢
    cases hr : remux_to_mkv exec (MPath.name ⟨stem, suffix⟩)
        (mkv_tmp_name ⟨stem, suffix⟩ true) with
    | true =>
      have hfix :
          fix_chain exec (initial_fs stem suffix oldBak) ⟨stem, suffix⟩
              (if pm = true then ".mkv" else ".mp4") true pm try_fps .FIX
            = ⟨.FIX, "remux_mkv inplace", MPath.with_suffix_name ⟨stem, suffix⟩ ".mkv", none,
                inplace_promote
                  (fsSet (initial_fs stem suffix oldBak) (mkv_tmp_name ⟨stem, suffix⟩ true)
                    (.output .remux))
                  ⟨stem, suffix⟩ (mkv_tmp_name ⟨stem, suffix⟩ true)
                  (MPath.with_suffix_name ⟨stem, suffix⟩ ".mkv"), [.remux]⟩ := by
        simp [fix_chain, hr]
      rw [hfix]
      have htmp := tmp_name_ne stem suffix "_fixed_tmp.mkv" hlo hhi (by decide)
      refine ⟨.remux, ?_, ?_⟩
      · exact promote_shape stem suffix _ _ _ oldBak htmp.1 htmp.2
          (final_name_ne stem suffix ".mkv" hlo (by decide)) h4
      · exact final_name_ne stem suffix ".mkv" hlo (by decide)
    | false =>
      cases hf : mp4_faststart_timescale exec (MPath.name ⟨stem, suffix⟩)
          (mp4_tmp_name ⟨stem, suffix⟩ true) with
      | true =>
        have hfix :
            fix_chain exec (initial_fs stem suffix oldBak) ⟨stem, suffix⟩
                (if pm = true then ".mkv" else ".mp4") true pm try_fps .FIX
              = ⟨.FIX, "mp4_faststart_timescale inplace", MPath.name ⟨stem, suffix⟩, none,
                  inplace_promote
                    (fsSet (initial_fs stem suffix oldBak) (mp4_tmp_name ⟨stem, suffix⟩ true)
                      (.output .faststart))
                    ⟨stem, suffix⟩ (mp4_tmp_name ⟨stem, suffix⟩ true)
                    (MPath.name ⟨stem, suffix⟩), [.remux, .faststart]⟩ := by
          simp [fix_chain, hr, hf]
        rw [hfix]
        have htmp := tmp_name_ne stem suffix "_fixed_tmp.mp4" hlo hhi (by decide)
        refine ⟨.faststart, ?_, ?_⟩
        · exact promote_shape stem suffix _ _ _ oldBak htmp.1 htmp.2 h4 h4
        · exact h4
      | false =>
        have hloop : (reencode_loop exec (initial_fs stem suffix oldBak) ⟨stem, suffix⟩
            (if pm = true then ".mkv" else ".mp4") true pm .FIX
            (none :: try_fps.map some)).err = none := by
          simpa [fix_chain, hr, hf] using herr
        obtain ⟨fi, hok, hout, hfs⟩ := reencode_loop_success exec
          (initial_fs stem suffix oldBak) ⟨stem, suffix⟩
          (if pm = true then ".mkv" else ".mp4") pm .FIX (none :: try_fps.map some) hloop
        have hfix_out :
            (fix_chain exec (initial_fs stem suffix oldBak) ⟨stem, suffix⟩
                (if pm = true then ".mkv" else ".mp4") true pm try_fps .FIX).out
              = MPath.with_suffix_name ⟨stem, suffix⟩ (if pm = true then ".mkv" else ".mp4") := by
          simp only [fix_chain, hr, hf]
          simpa using hout
        have hfix_fs :
            (fix_chain exec (initial_fs stem suffix oldBak) ⟨stem, suffix⟩
                (if pm = true then ".mkv" else ".mp4") true pm try_fps .FIX).fs
              = inplace_promote
                  (fsSet (initial_fs stem suffix oldBak)
                    (reenc_tmp_name ⟨stem, suffix⟩ (if pm = true then ".mkv" else ".mp4") true)
                    (.output (.reencode pm fi)))
                  ⟨stem, suffix⟩
                  (reenc_tmp_name ⟨stem, suffix⟩ (if pm = true then ".mkv" else ".mp4") true)
                  (MPath.with_suffix_name ⟨stem, suffix⟩ (if pm = true then ".mkv" else ".mp4")) := by
          simp only [fix_chain, hr, hf]
          simpa using hfs
        have htail : 10 ≤ ("_reenc_tmp" ++ (if pm = true then ".mkv" else ".mp4")).length := by
          rw [String.length_append]
          omega
        have htmp := tmp_name_ne stem suffix
          ("_reenc_tmp" ++ (if pm = true then ".mkv" else ".mp4")) hlo hhi htail
        refine ⟨.reencode pm fi, ?_, ?_⟩
        · rw [hfix_fs, hfix_out]
          exact promote_shape stem suffix _ _ _ oldBak htmp.1 htmp.2
            (final_name_ne stem suffix _ hlo heo4) h4
        · rw [hfix_out]
          exact final_name_ne stem suffix _ hlo heo4

/-- Witness for the amended C6: a stale backup is present, remux succeeds in
place, and the final filesystem is exactly the `.mkv` output plus the single
fresh backup. -/
theorem C6_inplace_backup_witness :
    ∃ strat : Strategy,
      (process_one (fun _ => ⟨0, true, 7⟩) (initial_fs "video" ".mp4" (some (.output .remux)))
          ⟨"video", ".mp4"⟩ none none none none none 0 [25, 30] false true false).fs
        = [((process_one (fun _ => ⟨0, true, 7⟩)
              (initial_fs "video" ".mp4" (some (.output .remux)))
              ⟨"video", ".mp4"⟩ none none none none none 0 [25, 30] false true false).out,
            FileContent.output strat),
           (("video" ++ ".mp4") ++ ".bak", FileContent.source)]
      ∧ (process_one (fun _ => ⟨0, true, 7⟩) (initial_fs "video" ".mp4" (some (.output .remux)))
          ⟨"video", ".mp4"⟩ none none none none none 0 [25, 30] false true false).out
          ≠ ("video" ++ ".mp4") ++ ".bak" :=
  C6_inplace_backup (fun _ => ⟨0, true, 7⟩) "video" ".mp4" none none none none none 0
    [25, 30] false (some (.output .remux)) (by decide) (by decide) (by decide)

end ConverterVideos
